import Mathlib

/-
  Verification of the Xline auth store backend
  (src/xline/src/storage/auth_store/backend.rs).

  Shallow embedding conventions:
  * Byte strings (`Vec<u8>`) are `List Nat`; Rust `String`s stay `String`.
    `String::from_utf8_lossy(name)` on a name that was itself produced from a
    Rust `String` is the identity, so user/role names are kept as `String`
    throughout, collapsing the round trip through bytes.
  * The physical store keys `user/<name>`, `role/<name>` and `auth_enable`
    partition the key space (the three prefixes are mutually non-overlapping),
    and `put_user`/`put_role` always derive the key from the record's own
    `name` field, so the revision-indexed store is split into a `users` list,
    a `roles` list and the `auth_enable` record, each looked up by name.
    The MVCC key index is kept alongside (`Index` below) keyed by the same
    logical keys.
  * Machine integers (revisions, sub revisions) are `Nat`; no operation in
    the modelled code lets them overflow or go negative.
  * Fallible Rust functions returning `Result<T, ExecuteError>` become
    `Except ExecuteError T`.  Storage-layer failures (DB write errors,
    decode panics) are outside the model: the modelled `put`/`delete`
    always succeed, as they do on an uncorrupted store.
-/

namespace XlineAuth

/-- Permission type (`Type` in rpc): Read, Write or Readwrite.  The source
stores it as an `i32` and decodes with `Type::from_i32(..).unwrap()`; the
model keeps the decoded form directly. -/
inductive PermType where
  | read
  | write
  | readwrite
deriving DecidableEq, Repr

/-- `Permission { perm_type, key, range_end }` from the rpc layer. -/
structure Permission where
  perm_type : PermType
  key : List Nat
  range_end : List Nat
deriving DecidableEq, Repr

/-- `UserAddOptions`; only the `no_password` field is read by the backend. -/
structure UserOptions where
  no_password : Bool
deriving DecidableEq, Repr

/-- `User { name, password, options, roles }`. -/
structure User where
  name : String
  password : String
  options : Option UserOptions
  roles : List String
deriving DecidableEq, Repr

/-- `Role { name, key_permission }`. -/
structure Role where
  name : String
  key_permission : List Permission
deriving DecidableEq, Repr

/-- Modelled from the spec: `KeyRange { start, end }` (server::command), a
half-open byte range; the source file only constructs these.  The `end`
field is renamed `stop` (`end` is a Lean keyword). -/
structure KeyRange where
  start : List Nat
  stop : List Nat
deriving DecidableEq, Repr

/-- Modelled from the spec: `UserPermissions { read, write }`, the per-user
effective key ranges held by the permission cache (perms.rs is not in src/;
the backend constructs it with `new()` and pushes onto both lists). -/
structure UserPermissions where
  read : List KeyRange
  write : List KeyRange
deriving DecidableEq, Repr

/-- The empty `UserPermissions::new()`. -/
def UserPermissions.empty : UserPermissions := ⟨[], []⟩

/-- Modelled from the spec: `PermissionCache { user_permissions,
role_to_users_map }` (perms.rs is not in src/); two hash maps, modelled as
association lists whose keys are unique in every reachable state.
`PermissionCache::new()` is the empty cache. -/
structure PermissionCache where
  user_permissions : List (String × UserPermissions)
  role_to_users_map : List (String × List String)
deriving DecidableEq, Repr

/-- The empty `PermissionCache::new()`. -/
def PermissionCache.empty : PermissionCache := ⟨[], []⟩

/-- A single error kind reaches clients: `ExecuteError::InvalidCommand`. -/
inductive ExecuteError where
  | invalidCommand (msg : String)
deriving DecidableEq, Repr

/-- The request union routed to this backend (payload fields only). -/
inductive RequestWrapper where
  | authEnable
  | authDisable
  | authStatus
  | authenticate (name : String) (password : String)
  | userAdd (name : String) (hashed_password : String) (options : Option UserOptions)
  | userGet (name : String)
  | userList
  | userDelete (name : String)
  | userChangePassword (name : String) (hashed_password : String)
  | userGrantRole (user : String) (role : String)
  | userRevokeRole (name : String) (role : String)
  | roleAdd (name : String)
  | roleGet (role : String)
  | roleList
  | roleDelete (role : String)
  | roleGrantPermission (name : String) (perm : Option Permission)
  | roleRevokePermission (role : String) (key : List Nat) (range_end : List Nat)
deriving DecidableEq, Repr

/-- The response union.  Response headers are produced by
`header_gen.gen_header_without_revision()` from the constant header
generator and carry no auth-store state, so they are omitted. -/
inductive ResponseWrapper where
  | authEnable
  | authDisable
  | authStatus (auth_revision : Nat) (enabled : Bool)
  | authenticate (token_name : String) (token_revision : Nat)
  | userAdd
  | userGet (roles : List String)
  | userList (users : List String)
  | userDelete
  | userChangePassword
  | userGrantRole
  | userRevokeRole
  | roleAdd
  | roleGet (perm : List Permission)
  | roleList (roles : List String)
  | roleDelete
  | roleGrantPermission
  | roleRevokePermission
deriving DecidableEq, Repr

/-- Modelled from the spec: `RequestCtx` (req_ctx.rs is not in src/): the
speculative-pool entry `(request, execute_failed_flag)`, built with
`RequestCtx::new(wrapper, res.is_err())` and read back with `req()` and
`met_err()`. -/
structure RequestCtx where
  req : RequestWrapper
  met_err_flag : Bool
deriving DecidableEq, Repr

/-- Logical keys of the auth namespace: `user/<n>`, `role/<n>`,
`auth_enable`. -/
inductive IdxKey where
  | user (n : String)
  | role (n : String)
  | authEnable
deriving DecidableEq, Repr

/-- Modelled from the spec: one revision entry of the MVCC key index
(§4.2); `deleted` marks a tombstone. -/
structure IdxRev where
  main : Nat
  sub : Nat
  deleted : Bool
deriving DecidableEq, Repr

/-- Modelled from the spec: the MVCC key index (§4.2), a map from logical
key to its revision history, newest first. -/
abbrev Index := List (IdxKey × List IdxRev)

/-- Association-list lookup (first match wins); models `HashMap::get`;
keys are unique in every reachable state. -/
def alookup {κ β : Type} [DecidableEq κ] : List (κ × β) → κ → Option β
  | [], _ => none
  | e :: rest, k => if e.1 = k then some e.2 else alookup rest k

/-- Association-list insert-or-replace, models `HashMap::insert` (and the
`entry().or_insert_with` pattern): replaces the first binding of the key in
place, otherwise appends. -/
def ainsert {κ β : Type} [DecidableEq κ] : List (κ × β) → κ → β → List (κ × β)
  | [], k, v => [(k, v)]
  | e :: rest, k, v => if e.1 = k then (k, v) :: rest else e :: ainsert rest k v

/-- Association-list removal, models `HashMap::remove`. -/
def aremove {κ β : Type} [DecidableEq κ] : List (κ × β) → κ → List (κ × β)
  | [], _ => []
  | e :: rest, k => if e.1 = k then rest else e :: aremove rest k

/-- Models `entry(k).or_insert_with(d)` followed by a mutation `f` of the
entry. -/
def aupdate {κ β : Type} [DecidableEq κ] (m : List (κ × β)) (k : κ) (d : β) (f : β → β) :
    List (κ × β) :=
  ainsert m k (f ((alookup m k).getD d))

/-- Models `entry(k).and_modify(f)`: mutates the entry only if present. -/
def amodify {κ β : Type} [DecidableEq κ] (m : List (κ × β)) (k : κ) (f : β → β) :
    List (κ × β) :=
  match alookup m k with
  | none => m
  | some v => ainsert m k (f v)

/-- Lookup in a record list by a name projection; models a `get` on the
byte-keyed store, whose key is always derived from the record's own name. -/
def klookup {α : Type} (key : α → String) : List α → String → Option α
  | [], _ => none
  | x :: rest, n => if key x = n then some x else klookup key rest n

/-- Insert-or-replace in a record list by name; models a `put` on the
byte-keyed store (MVCC history aside: the latest value wins). -/
def kput {α : Type} (key : α → String) : List α → α → List α
  | [], x => [x]
  | y :: rest, x => if key y = key x then x :: rest else y :: kput key rest x

/-- Remove from a record list by name; models tombstoning the key. -/
def kremove {α : Type} (key : α → String) : List α → String → List α
  | [], _ => []
  | y :: rest, n => if key y = n then rest else y :: kremove key rest n

/-- `l.set i x` written out; models `vec[i] = x` composed below. -/
def listModify {α : Type} : List α → Nat → (α → α) → List α
  | [], _, _ => []
  | x :: rest, 0, f => f x :: rest
  | x :: rest, i + 1, f => x :: listModify rest i f

/-- `Vec::insert(i, x)`. -/
def listInsertAt {α : Type} : List α → Nat → α → List α
  | l, 0, x => x :: l
  | [], _ + 1, x => [x]
  | y :: rest, i + 1, x => y :: listInsertAt rest i x

/-- `Vec::remove(i)` (shifting removal). -/
def listRemoveAt {α : Type} : List α → Nat → List α
  | [], _ => []
  | _ :: rest, 0 => rest
  | y :: rest, i + 1 => y :: listRemoveAt rest i

/-- `Vec::swap_remove(i)`: overwrite index `i` with the last element and
pop the last element. -/
def swapRemove {α : Type} (l : List α) (i : Nat) : List α :=
  match l.getLast? with
  | none => l
  | some last => (l.set i last).dropLast

/-- Result of `slice::binary_search`/`binary_search_by`: `found i` is
`Ok(i)` (match at `i`), `notFound i` is `Err(i)` (sorted insertion point). -/
inductive BinResult where
  | found (i : Nat)
  | notFound (i : Nat)
deriving DecidableEq, Repr

/-- Shift a search result past one element. -/
def BinResult.shift : BinResult → BinResult
  | .found i => .found (i + 1)
  | .notFound i => .notFound (i + 1)

/-- Is the result `Ok`? -/
def BinResult.isFound : BinResult → Bool
  | .found _ => true
  | .notFound _ => false

/-- Models `slice::binary_search_by(f)`: on a slice strictly sorted with
respect to `f` (as every searched slice here is), Rust's binary search
returns exactly this canonical result — `Ok` at the unique match, or `Err`
at the unique sorted insertion point — so it is embedded as the equivalent
linear scan. -/
def bsearchBy {α : Type} (f : α → Ordering) : List α → BinResult
  | [] => .notFound 0
  | x :: rest =>
    match f x with
    | .lt => (bsearchBy f rest).shift
    | .eq => .found 0
    | .gt => .notFound 0

/-- `Ord::cmp` on byte strings (`Vec<u8>`): lexicographic. -/
def cmpBytes : List Nat → List Nat → Ordering
  | [], [] => .eq
  | [], _ :: _ => .lt
  | _ :: _, [] => .gt
  | a :: as_, b :: bs =>
    if a < b then .lt else if b < a then .gt else cmpBytes as_ bs

/-- The permission comparator used by the backend's binary searches:
`p.key.cmp(key)`, ties broken by `p.range_end.cmp(range_end)`. -/
def keyPairCmp (a b : List Nat × List Nat) : Ordering :=
  match cmpBytes a.1 b.1 with
  | .eq => cmpBytes a.2 b.2
  | o => o

/-- The code points of a string; UTF-8 byte order coincides with code
point order, so comparing these lists models Rust's byte-wise `Ord` on
`String`. -/
def strBytes (s : String) : List Nat :=
  s.data.map Char.toNat

/-- `Ord::cmp` on Rust `String`s: lexicographic on the underlying
bytes. -/
def strCmp (a b : String) : Ordering :=
  cmpBytes (strBytes a) (strBytes b)

/-- The strict string order induced by `strCmp`, under which each user's
`roles` list is kept sorted. -/
def strLt (a b : String) : Prop :=
  strCmp a b = .lt

instance (a b : String) : Decidable (strLt a b) := by
  unfold strLt; infer_instance

/-- `user.roles.binary_search(&role)`. -/
def rolesSearch (roles : List String) (role : String) : BinResult :=
  bsearchBy (fun a => strCmp a role) roles

/-- `role.key_permission.binary_search_by(|p| ...)` against a
`(key, range_end)` pair. -/
def permSearch (kp : List Permission) (key range_end : List Nat) : BinResult :=
  bsearchBy (fun p => keyPairCmp (p.key, p.range_end) (key, range_end)) kp

/-- The full state of `AuthStoreBackend`.  `users`, `roles` and
`auth_enable_rec` are the decoded latest values of the three disjoint
regions of the revisioned store; `index` is the MVCC key index over the
same keys; `header_revision` is the (externally owned, here constant)
revision of the shared `HeaderGenerator`. -/
structure AuthState where
  index : Index
  users : List User
  roles : List Role
  auth_enable_rec : Option (List Nat)
  revision : Nat
  sp_exec_pool : List (Nat × RequestCtx)
  enabled : Bool
  permission_cache : PermissionCache
  has_token_manager : Bool
  header_revision : Nat
deriving DecidableEq, Repr

/-- `AuthStoreBackend::new`: empty store, revision counter at its initial
value (modelled from the spec: `current()` starts at 0 so that the enable
lifecycle of §8 reaches revision 4 after four mutations), auth disabled,
empty cache and pool. -/
def initialState : AuthState :=
  { index := []
    users := []
    roles := []
    auth_enable_rec := none
    revision := 0
    sp_exec_pool := []
    enabled := false
    permission_cache := PermissionCache.empty
    has_token_manager := false
    header_revision := 0 }

/-- Modelled from the spec: `Index::insert_or_update_revision` (§4.2)
records a new live revision for the key (the returned
create/mod/version triple is not needed by any claim). -/
def idxInsertOrUpdate (idx : Index) (k : IdxKey) (main sub : Nat) : Index :=
  match alookup idx k with
  | none => ainsert idx k [⟨main, sub, false⟩]
  | some h => ainsert idx k (⟨main, sub, false⟩ :: h)

/-- Modelled from the spec: `Index::delete` (§4.2) marks a live key
deleted by stamping a tombstone revision; a dead or absent key is left
unchanged (no revisions are returned for it). -/
def idxDelete (idx : Index) (k : IdxKey) (main sub : Nat) : Index :=
  match alookup idx k with
  | none => idx
  | some [] => idx
  | some (r :: h) =>
    if r.deleted then idx else ainsert idx k (⟨main, sub, true⟩ :: r :: h)

/-- Modelled from the spec: `Index::get(key, &[], 0)` (§4.2) — a
single-key get returns the latest-revision pointer for the key if it is
live, and nothing otherwise. -/
def idxGetOne (idx : Index) (k : IdxKey) : List IdxRev :=
  match alookup idx k with
  | none => []
  | some [] => []
  | some (r :: _) => if r.deleted then [] else [r]

/-- `put_user`: write the encoded user at `(revision, sub_revision)`. -/
def put_user (s : AuthState) (u : User) (revision sub_revision : Nat) : AuthState :=
  { s with users := kput User.name s.users u
           index := idxInsertOrUpdate s.index (.user u.name) revision sub_revision }

/-- `put_role`: write the encoded role at `(revision, sub_revision)`. -/
def put_role (s : AuthState) (r : Role) (revision sub_revision : Nat) : AuthState :=
  { s with roles := kput Role.name s.roles r
           index := idxInsertOrUpdate s.index (.role r.name) revision sub_revision }

/-- `put(AUTH_ENABLE_KEY, value, revision, sub_revision)`. -/
def put_auth_enable (s : AuthState) (value : List Nat) (revision sub_revision : Nat) :
    AuthState :=
  { s with auth_enable_rec := some value
           index := idxInsertOrUpdate s.index .authEnable revision sub_revision }

/-- `delete_user`. -/
def delete_user (s : AuthState) (username : String) (revision sub_revision : Nat) :
    AuthState :=
  { s with users := kremove User.name s.users username
           index := idxDelete s.index (.user username) revision sub_revision }

/-- `delete_role`. -/
def delete_role (s : AuthState) (rolename : String) (revision sub_revision : Nat) :
    AuthState :=
  { s with roles := kremove Role.name s.roles rolename
           index := idxDelete s.index (.role rolename) revision sub_revision }

/-- `get_user`: decode the latest value under `user/<username>`. -/
def get_user (s : AuthState) (username : String) : Except ExecuteError User :=
  match klookup User.name s.users username with
  | some u => .ok u
  | none => .error (.invalidCommand "user not found")

/-- `get_role`: decode the latest value under `role/<rolename>`. -/
def get_role (s : AuthState) (rolename : String) : Except ExecuteError Role :=
  match klookup Role.name s.roles rolename with
  | some r => .ok r
  | none => .error (.invalidCommand "role not found")

/-- `get_all_users`: range scan over the `user/` region. -/
def get_all_users (s : AuthState) : List User := s.users

/-- `get_all_roles`: range scan over the `role/` region. -/
def get_all_roles (s : AuthState) : List Role := s.roles

/-- `RevisionNumber::next()` (modelled from the spec: an atomically
incremented counter): bump the counter and return the new value. -/
def next_revision (s : AuthState) : AuthState × Nat :=
  ({ s with revision := s.revision + 1 }, s.revision + 1)

/-- `Result::is_err`. -/
def exceptIsErr {ε α : Type} : Except ε α → Bool
  | .error _ => true
  | .ok _ => false

/-- `Result::is_ok`. -/
def exceptIsOk {ε α : Type} : Except ε α → Bool
  | .error _ => false
  | .ok _ => true

/-- Merge one stored permission into a `UserPermissions` accumulator:
`Readwrite` pushes the range onto both lists, `Write`/`Read` onto one. -/
def pushPerm (acc : UserPermissions) (p : Permission) : UserPermissions :=
  let key_range : KeyRange := ⟨p.key, p.range_end⟩
  match p.perm_type with
  | .readwrite => { acc with read := acc.read ++ [key_range], write := acc.write ++ [key_range] }
  | .write => { acc with write := acc.write ++ [key_range] }
  | .read => { acc with read := acc.read ++ [key_range] }

/-- `get_user_permissions`: fold the stored permissions of each of the
user's roles (roles missing from the store are skipped). -/
def get_user_permissions (s : AuthState) (u : User) : UserPermissions :=
  u.roles.foldl
    (fun acc role_name =>
      match get_role s role_name with
      | .error _ => acc
      | .ok role => role.key_permission.foldl pushPerm acc)
    UserPermissions.empty

/-- `create_permission_cache`: build a fresh `PermissionCache`, insert the
effective permissions of every persisted user, and atomically replace the
whole cache.  Note the fresh cache's `role_to_users_map` is never
populated. -/
def create_permission_cache (s : AuthState) : AuthState :=
  { s with permission_cache :=
      { user_permissions := (get_all_users s).map (fun u => (u.name, get_user_permissions s u))
        role_to_users_map := [] } }

/-- `handle_auth_enable_request`: Ok immediately if already enabled; else
require user `root` to exist and hold role `root`. -/
def handle_auth_enable_request (s : AuthState) : Except ExecuteError ResponseWrapper :=
  if s.enabled then .ok .authEnable
  else
    match get_user s "root" with
    | .error e => .error e
    | .ok user =>
      if (rolesSearch user.roles "root").isFound then .ok .authEnable
      else .error (.invalidCommand "root user does not have root role")

/-- `handle_auth_disable_request`: always succeeds. -/
def handle_auth_disable_request (_s : AuthState) : ResponseWrapper := .authDisable

/-- `handle_auth_status_request`: report the auth revision and flag. -/
def handle_auth_status_request (s : AuthState) : ResponseWrapper :=
  .authStatus s.revision s.enabled

/-- `handle_authenticate_request`: auth must be enabled; then `assign` a
token — modelled from the spec: the token binds (username, revision); the
wall-clock expiry is outside the model.  Without a token manager `assign`
fails. -/
def handle_authenticate_request (s : AuthState) (name : String) (_password : String) :
    Except ExecuteError ResponseWrapper :=
  if !s.enabled then .error (.invalidCommand "auth is not enabled")
  else if s.has_token_manager then .ok (.authenticate name s.revision)
  else .error (.invalidCommand "token_manager is not initialized")

/-- `handle_user_add_request`: the user must not exist. -/
def handle_user_add_request (s : AuthState) (name : String) : Except ExecuteError ResponseWrapper :=
  if exceptIsOk (get_user s name) then .error (.invalidCommand "user already exists")
  else .ok .userAdd

/-- `handle_user_get_request`: the user must exist; returns its roles. -/
def handle_user_get_request (s : AuthState) (name : String) : Except ExecuteError ResponseWrapper :=
  match get_user s name with
  | .error e => .error e
  | .ok user => .ok (.userGet user.roles)

/-- `handle_user_list_request`: names of all users. -/
def handle_user_list_request (s : AuthState) : Except ExecuteError ResponseWrapper :=
  .ok (.userList ((get_all_users s).map User.name))

/-- `handle_user_delete_request`: while enabled, `root` is undeletable;
the user must exist. -/
def handle_user_delete_request (s : AuthState) (name : String) :
    Except ExecuteError ResponseWrapper :=
  if s.enabled ∧ name = "root" then .error (.invalidCommand "root user cannot be deleted")
  else
    match get_user s name with
    | .error e => .error e
    | .ok _ => .ok .userDelete

/-- `handle_user_change_password_request`: the user must exist; a user
that needs a password must be given a non-empty hash. -/
def handle_user_change_password_request (s : AuthState) (name hashed_password : String) :
    Except ExecuteError ResponseWrapper :=
  match get_user s name with
  | .error e => .error e
  | .ok user =>
    let need_password := match user.options with
      | none => true
      | some o => !o.no_password
    if need_password && (hashed_password == "") then
      .error (.invalidCommand "password is required but not provided")
    else .ok .userChangePassword

/-- `handle_user_grant_role_request`: the user must exist; the role must
exist unless it is `root`.  The duplicate-grant check happens in sync, not
here. -/
def handle_user_grant_role_request (s : AuthState) (user role : String) :
    Except ExecuteError ResponseWrapper :=
  match get_user s user with
  | .error e => .error e
  | .ok _ =>
    if role ≠ "root" then
      match get_role s role with
      | .error e => .error e
      | .ok _ => .ok .userGrantRole
    else .ok .userGrantRole

/-- `handle_user_revoke_role_request`: while enabled, `root` cannot lose
role `root`; the user must exist and hold the role. -/
def handle_user_revoke_role_request (s : AuthState) (name role : String) :
    Except ExecuteError ResponseWrapper :=
  if s.enabled ∧ name = "root" ∧ role = "root" then
    .error (.invalidCommand "root user cannot revoke root role")
  else
    match get_user s name with
    | .error e => .error e
    | .ok user =>
      if (rolesSearch user.roles role).isFound then .ok .userRevokeRole
      else .error (.invalidCommand "role is not granted to the user")

/-- `handle_role_add_request`: the role must not exist. -/
def handle_role_add_request (s : AuthState) (name : String) :
    Except ExecuteError ResponseWrapper :=
  if exceptIsOk (get_role s name) then .error (.invalidCommand "role already exists")
  else .ok .roleAdd

/-- `handle_role_get_request`: the role must exist; for the role named
`root` the response is a synthesized `Readwrite` permission over all keys,
regardless of the stored permissions. -/
def handle_role_get_request (s : AuthState) (role : String) :
    Except ExecuteError ResponseWrapper :=
  match get_role s role with
  | .error e => .error e
  | .ok r =>
    let perm :=
      if r.name = "root" then [⟨PermType.readwrite, [], [0]⟩]
      else r.key_permission
    .ok (.roleGet perm)

/-- `handle_role_list_request`: names of all roles. -/
def handle_role_list_request (s : AuthState) : Except ExecuteError ResponseWrapper :=
  .ok (.roleList ((get_all_roles s).map Role.name))

/-- `handle_role_delete_request`: while enabled, `root` is undeletable;
the role must exist. -/
def handle_role_delete_request (s : AuthState) (role : String) :
    Except ExecuteError ResponseWrapper :=
  if s.enabled ∧ role = "root" then .error (.invalidCommand "root role cannot be deleted")
  else
    match get_role s role with
    | .error e => .error e
    | .ok _ => .ok .roleDelete

/-- `handle_role_grant_permission_request`: the role must exist (the
request's permission is only inspected in sync). -/
def handle_role_grant_permission_request (s : AuthState) (name : String) :
    Except ExecuteError ResponseWrapper :=
  match get_role s name with
  | .error e => .error e
  | .ok _ => .ok .roleGrantPermission

/-- `handle_role_revoke_permission_request`: the role must exist and store
the exact `(key, range_end)` permission. -/
def handle_role_revoke_permission_request (s : AuthState) (role : String)
    (key range_end : List Nat) : Except ExecuteError ResponseWrapper :=
  match get_role s role with
  | .error e => .error e
  | .ok r =>
    if (permSearch r.key_permission key range_end).isFound then .ok .roleRevokePermission
    else .error (.invalidCommand "permission not granted to the role")

/-- The read-only dispatch inside `handle_auth_req`. -/
def handle_dispatch (s : AuthState) : RequestWrapper → Except ExecuteError ResponseWrapper
  | .authEnable => handle_auth_enable_request s
  | .authDisable => .ok (handle_auth_disable_request s)
  | .authStatus => .ok (handle_auth_status_request s)
  | .authenticate name password => handle_authenticate_request s name password
  | .userAdd name _ _ => handle_user_add_request s name
  | .userGet name => handle_user_get_request s name
  | .userList => handle_user_list_request s
  | .userDelete name => handle_user_delete_request s name
  | .userChangePassword name hashed => handle_user_change_password_request s name hashed
  | .userGrantRole user role => handle_user_grant_role_request s user role
  | .userRevokeRole name role => handle_user_revoke_role_request s name role
  | .roleAdd name => handle_role_add_request s name
  | .roleGet role => handle_role_get_request s role
  | .roleList => handle_role_list_request s
  | .roleDelete role => handle_role_delete_request s role
  | .roleGrantPermission name _ => handle_role_grant_permission_request s name
  | .roleRevokePermission role key range_end =>
    handle_role_revoke_permission_request s role key range_end

/-- `handle_auth_req`: compute the speculative response, record
`(request, is_err)` in the speculative pool under the proposal id, and
return the response.  This is the execute phase. -/
def handle_auth_req (s : AuthState) (id : Nat) (wrapper : RequestWrapper) :
    AuthState × Except ExecuteError ResponseWrapper :=
  let res := handle_dispatch s wrapper
  ({ s with sp_exec_pool := ainsert s.sp_exec_pool id ⟨wrapper, exceptIsErr res⟩ }, res)

/-- `sync_auth_enable_request`: no-op if already enabled; else allocate a
revision, write the enable byte `[1]`, raise the flag and rebuild the
permission cache.  (The source's `Result` only carries storage failures,
which are outside the model.) -/
def sync_auth_enable_request (s : AuthState) : AuthState :=
  if s.enabled then s
  else
    let (s1, revision) := next_revision s
    let s2 := put_auth_enable s1 [1] revision 0
    let s3 := { s2 with enabled := true }
    create_permission_cache s3

/-- `sync_auth_disable_request`: no-op if already disabled; else allocate
a revision, write the enable byte `[0]` and clear the flag. -/
def sync_auth_disable_request (s : AuthState) : AuthState :=
  if !s.enabled then s
  else
    let (s1, revision) := next_revision s
    let s2 := put_auth_enable s1 [0] revision 0
    { s2 with enabled := false }

/-- `sync_user_add_request`: store the new user with empty roles. -/
def sync_user_add_request (s : AuthState) (name hashed_password : String)
    (options : Option UserOptions) : AuthState :=
  let user : User := ⟨name, hashed_password, options, []⟩
  let (s1, revision) := next_revision s
  put_user s1 user revision 0

/-- `sync_user_delete_request`: allocate a revision, tombstone the user,
and drop it from `user_permissions` and from every `role_to_users_map`
list (by `swap_remove` of its first occurrence). -/
def sync_user_delete_request (s : AuthState) (name : String) : AuthState :=
  let (s1, next_rev) := next_revision s
  let s2 := delete_user s1 name next_rev 0
  { s2 with permission_cache :=
      { user_permissions := aremove s2.permission_cache.user_permissions name
        role_to_users_map := s2.permission_cache.role_to_users_map.map
          (fun e =>
            match e.2.findIdx? (fun uname => uname = name) with
            | none => e
            | some idx => (e.1, swapRemove e.2 idx)) } }

/-- `sync_user_change_password_request`: the user must exist; replace its
password hash at a fresh revision. -/
def sync_user_change_password_request (s : AuthState) (name hashed_password : String) :
    Except ExecuteError AuthState :=
  match get_user s name with
  | .error e => .error e
  | .ok user =>
    let user' := { user with password := hashed_password }
    let (s1, revision) := next_revision s
    .ok (put_user s1 user' revision 0)

/-- Merge a role's stored permissions into one cached user entry
(the loop body of `sync_user_grant_role_request`'s cache update). -/
def mergePermsIntoEntry (perms : List Permission) (entry : UserPermissions) :
    UserPermissions :=
  perms.foldl pushPerm entry

/-- `sync_user_grant_role_request`: the user must exist; the role must
exist unless named `root` (re-checked here, unlike most syncs); the user
must not already hold the role.  Insert the role at its sorted position,
store the user at a fresh revision, and — only when the role is stored —
merge the role's permissions into the user's cache entry and append the
user to `role_to_users_map[role]`. -/
def sync_user_grant_role_request (s : AuthState) (user role : String) :
    Except ExecuteError AuthState :=
  match get_user s user with
  | .error e => .error e
  | .ok u =>
    if role ≠ "root" ∧ exceptIsErr (get_role s role) then
      .error (.invalidCommand ("Role " ++ role ++ " does not exist"))
    else
      match rolesSearch u.roles role with
      | .found _ =>
        .error (.invalidCommand ("User " ++ user ++ " already has role " ++ role))
      | .notFound idx =>
        let u' := { u with roles := listInsertAt u.roles idx role }
        let (s1, revision) := next_revision s
        let s2 := put_user s1 u' revision 0
        match get_role s role with
        | .error _ => .ok s2
        | .ok r =>
          .ok { s2 with permission_cache :=
            { user_permissions :=
                aupdate s2.permission_cache.user_permissions user
                  UserPermissions.empty (mergePermsIntoEntry r.key_permission)
              role_to_users_map :=
                aupdate s2.permission_cache.role_to_users_map role [] (· ++ [user]) } }

/-- `sync_user_revoke_role_request`: the user must exist and hold the
role; remove the role, store the user at a fresh revision, recompute the
user's effective permissions from its remaining roles, and drop the user
from `role_to_users_map[role]` (only if that entry exists). -/
def sync_user_revoke_role_request (s : AuthState) (name role : String) :
    Except ExecuteError AuthState :=
  match get_user s name with
  | .error e => .error e
  | .ok u =>
    match rolesSearch u.roles role with
    | .notFound _ =>
      .error (.invalidCommand ("User " ++ name ++ " does not have role " ++ role))
    | .found idx =>
      let u' := { u with roles := listRemoveAt u.roles idx }
      let (s1, revision) := next_revision s
      let s2 := put_user s1 u' revision 0
      let user_permissions := get_user_permissions s2 u'
      .ok { s2 with permission_cache :=
        { user_permissions :=
            ainsert s2.permission_cache.user_permissions name user_permissions
          role_to_users_map :=
            amodify s2.permission_cache.role_to_users_map role
              (fun users =>
                match users.findIdx? (fun uname => uname = name) with
                | none => users
                | some i => swapRemove users i) } }

/-- `sync_role_add_request`: store the new role with no permissions. -/
def sync_role_add_request (s : AuthState) (name : String) : AuthState :=
  let role : Role := ⟨name, []⟩
  let (s1, revision) := next_revision s
  put_role s1 role revision 0

/-- The cascade of `sync_role_delete_request`: walk all users; every user
holding the deleted role is rewritten without it at the same main revision
and the next sub revision (starting at 1), and its recomputed permissions
are collected. -/
def roleDeleteCascade (role : String) (revision : Nat) :
    List User → AuthState → Nat → List (String × UserPermissions) →
    AuthState × List (String × UserPermissions)
  | [], s, _, new_perms => (s, new_perms)
  | u :: rest, s, sub_revision, new_perms =>
    match rolesSearch u.roles role with
    | .notFound _ => roleDeleteCascade role revision rest s sub_revision new_perms
    | .found idx =>
      let u' := { u with roles := listRemoveAt u.roles idx }
      let s' := put_user s u' revision sub_revision
      let perms := get_user_permissions s' u'
      roleDeleteCascade role revision rest s' (sub_revision + 1)
        (ainsert new_perms u'.name perms)

/-- `sync_role_delete_request`: allocate a revision, tombstone the role,
cascade over all users holding it (sub revisions from 1), extend
`user_permissions` with the recomputed entries and drop
`role_to_users_map[role]`. -/
def sync_role_delete_request (s : AuthState) (role : String) : AuthState :=
  let (s1, revision) := next_revision s
  let s2 := delete_role s1 role revision 0
  let users := get_all_users s2
  let res := roleDeleteCascade role revision users s2 1 []
  { res.1 with permission_cache :=
      { user_permissions :=
          res.2.foldl (fun m e => ainsert m e.1 e.2)
            res.1.permission_cache.user_permissions
        role_to_users_map := aremove res.1.permission_cache.role_to_users_map role } }

/-- The stored-permission update of `sync_role_grant_permission_request`:
binary-search by `(key, range_end)`; on a hit overwrite only `perm_type`
at that index, on a miss insert at the returned sorted position. -/
def grantPermList (kp : List Permission) (p : Permission) : List Permission :=
  match permSearch kp p.key p.range_end with
  | .found idx => listModify kp idx (fun q => { q with perm_type := p.perm_type })
  | .notFound idx => listInsertAt kp idx p

/-- `sync_role_grant_permission_request`: the role must exist and the
request must carry a permission; update the stored role at a fresh
revision, then fan the granted range out to the cached entry of every
user in `role_to_users_map[name]` (pushing onto read/write lists by
type). -/
def sync_role_grant_permission_request (s : AuthState) (name : String)
    (perm : Option Permission) : Except ExecuteError AuthState :=
  match get_role s name with
  | .error e => .error e
  | .ok role =>
    match perm with
    | none => .error (.invalidCommand "Permission is not specified")
    | some permission =>
      let role' := { role with key_permission := grantPermList role.key_permission permission }
      let (s1, revision) := next_revision s
      let s2 := put_role s1 role' revision 0
      let users := (alookup s2.permission_cache.role_to_users_map name).getD []
      .ok { s2 with permission_cache :=
        { s2.permission_cache with user_permissions :=
            (users.foldl
              (fun m user => aupdate m user UserPermissions.empty (pushPerm · permission))
              s2.permission_cache.user_permissions) } }

/-- `sync_role_revoke_permission_request`: the role must exist and store
the exact `(key, range_end)`; remove it at a fresh revision, then
recompute from the persisted state the effective permissions of every
user listed in `role_to_users_map[role]` that still exists. -/
def sync_role_revoke_permission_request (s : AuthState) (role : String)
    (key range_end : List Nat) : Except ExecuteError AuthState :=
  match get_role s role with
  | .error e => .error e
  | .ok r =>
    match permSearch r.key_permission key range_end with
    | .notFound _ => .error (.invalidCommand "Permission not found")
    | .found idx =>
      let r' := { r with key_permission := listRemoveAt r.key_permission idx }
      let (s1, next_rev) := next_revision s
      let s2 := put_role s1 r' next_rev 0
      let users := ((alookup s2.permission_cache.role_to_users_map role).getD []).filterMap
        (fun uname =>
          match get_user s2 uname with
          | .ok u => some u
          | .error _ => none)
      .ok { s2 with permission_cache :=
        { s2.permission_cache with user_permissions :=
            (users.foldl
              (fun m u => ainsert m u.name (get_user_permissions s2 u))
              s2.permission_cache.user_permissions) } }

/-- The per-request dispatch inside `sync_request` (read-only requests
sync to nothing). -/
def sync_dispatch (s : AuthState) : RequestWrapper → Except ExecuteError AuthState
  | .authEnable => .ok (sync_auth_enable_request s)
  | .authDisable => .ok (sync_auth_disable_request s)
  | .authStatus => .ok s
  | .authenticate _ _ => .ok s
  | .userAdd name hashed options => .ok (sync_user_add_request s name hashed options)
  | .userGet _ => .ok s
  | .userList => .ok s
  | .userDelete name => .ok (sync_user_delete_request s name)
  | .userChangePassword name hashed => sync_user_change_password_request s name hashed
  | .userGrantRole user role => sync_user_grant_role_request s user role
  | .userRevokeRole name role => sync_user_revoke_role_request s name role
  | .roleAdd name => .ok (sync_role_add_request s name)
  | .roleGet _ => .ok s
  | .roleList => .ok s
  | .roleDelete role => .ok (sync_role_delete_request s role)
  | .roleGrantPermission name perm => sync_role_grant_permission_request s name perm
  | .roleRevokePermission role key range_end =>
    sync_role_revoke_permission_request s role key range_end

/-- `sync_request`: pop the speculative context for the proposal id
(`none` models the source's panic when it is absent); if execute met an
error, do nothing further and return the header generator's current
revision; otherwise apply the request's sync and return that same header
revision.  Every error a sync can raise is raised before any mutation, so
an erring sync also leaves the state (pool aside) unchanged. -/
def sync_request (s : AuthState) (id : Nat) :
    Option (AuthState × Except ExecuteError Nat) :=
  match alookup s.sp_exec_pool id with
  | none => none
  | some ctx =>
    let s1 := { s with sp_exec_pool := aremove s.sp_exec_pool id }
    if ctx.met_err_flag then some (s1, .ok s1.header_revision)
    else
      match sync_dispatch s1 ctx.req with
      | .ok s2 => some (s2, .ok s2.header_revision)
      | .error e => some (s1, .error e)

/-- One consensus step: execute then sync the same proposal id (the state
after a panicking sync is unreachable for ids produced by the preceding
execute). -/
def applyStep (s : AuthState) (step : Nat × RequestWrapper) : AuthState :=
  let s1 := (handle_auth_req s step.1 step.2).1
  match sync_request s1 step.1 with
  | some (s2, _) => s2
  | none => s1

/-- Run a log of proposals through execute + sync in order. -/
def runSeq (s : AuthState) (steps : List (Nat × RequestWrapper)) : AuthState :=
  steps.foldl applyStep s

/-- Modelled from the spec: the `role_to_users` half of a §4.4 full
rebuild — "role_to_users maps each role name to exactly the users
currently holding that role" — written from the spec's words for
comparison with the cache the code actually maintains. -/
def spec_role_to_users (s : AuthState) : List (String × List String) :=
  (get_all_roles s).map
    (fun r => (r.name, ((get_all_users s).filter (fun u => u.roles.contains r.name)).map User.name))

/-- The enable lifecycle of §8: add root, add role root, grant, enable. -/
def c1Seq : List (Nat × RequestWrapper) :=
  [(1, .userAdd "root" "h" none), (2, .roleAdd "root"),
   (3, .userGrantRole "root" "root"), (4, .authEnable)]

/-- Duplicate-grant scenario: state with user `alice` and role `dev`. -/
def c6Start : AuthState :=
  runSeq initialState [(1, .userAdd "alice" "h" none), (2, .roleAdd "dev")]

/-- Duplicate-grant scenario: the first execute of the grant. -/
def c6FirstExec : AuthState × Except ExecuteError ResponseWrapper :=
  handle_auth_req c6Start 3 (.userGrantRole "alice" "dev")

/-- Duplicate-grant scenario: the state after the first grant's sync. -/
def c6AfterFirst : AuthState :=
  match sync_request c6FirstExec.1 3 with
  | some (s, _) => s
  | none => c6FirstExec.1

/-- Duplicate-grant scenario: the second execute of the same grant. -/
def c6SecondExec : AuthState × Except ExecuteError ResponseWrapper :=
  handle_auth_req c6AfterFirst 4 (.userGrantRole "alice" "dev")

/-- Duplicate-grant scenario: the state after the second grant's sync. -/
def c6AfterSecond : AuthState :=
  match sync_request c6SecondExec.1 4 with
  | some (s, _) => s
  | none => c6SecondExec.1

/-- A state whose store holds exactly one user: root holding role root. -/
def c5RootState : AuthState :=
  { initialState with users := [⟨"root", "h", none, ["root"]⟩] }

/-- A state whose store holds one role `dev` with one stored permission. -/
def c7State : AuthState :=
  { initialState with roles := [⟨"dev", [⟨PermType.read, [1], [2]⟩]⟩] }

/-- A permission over the same `(key, range_end)` with a different type. -/
def c7Perm : Permission := ⟨PermType.write, [1], [2]⟩

/-- The strict `(key, range_end)` order on permissions under which the
stored `key_permission` lists are sorted. -/
def permPairLt (p q : Permission) : Prop :=
  keyPairCmp (p.key, p.range_end) (q.key, q.range_end) = .lt

instance (p q : Permission) : Decidable (permPairLt p q) := by
  unfold permPairLt; infer_instance

/-! ### General lemmas about the store and search helpers -/

/-- A record found under a name carries that name. -/
theorem klookup_key {α : Type} (key : α → String) :
    ∀ (l : List α) (n : String) (x : α), klookup key l n = some x → key x = n := by
  intro l
  induction l with
  | nil => intro n x h; simp [klookup] at h
  | cons y rest ih =>
    intro n x h
    unfold klookup at h
    by_cases hy : key y = n
    · rw [if_pos hy] at h
      injection h with h'
      rw [← h']; exact hy
    · rw [if_neg hy] at h
      exact ih n x h

/-- After a `put`, looking the record's own name up returns it. -/
theorem klookup_kput_self {α : Type} (key : α → String) :
    ∀ (l : List α) (x : α), klookup key (kput key l x) (key x) = some x := by
  intro l
  induction l with
  | nil => intro x; simp [kput, klookup]
  | cons y rest ih =>
    intro x
    unfold kput
    by_cases hy : key y = key x
    · rw [if_pos hy]; simp [klookup]
    · rw [if_neg hy]; unfold klookup; rw [if_neg hy]; exact ih x

/-- A map that fixes every element of a list fixes the list. -/
theorem map_eq_self_of_fix {α : Type} (f : α → α) :
    ∀ l : List α, (∀ x ∈ l, f x = x) → l.map f = l := by
  intro l
  induction l with
  | nil => intro _; rfl
  | cons y rest ih =>
    intro h
    simp only [List.map_cons]
    rw [h y (List.mem_cons_self y rest), ih (fun x hx => h x (List.mem_cons_of_mem y hx))]

/-- Shifting preserves `isFound`. -/
theorem BinResult.shift_isFound (r : BinResult) : r.shift.isFound = r.isFound := by
  cases r <;> rfl

/-! ### The byte-wise comparator -/

/-- `cmpBytes` reports `eq` exactly on equal byte strings. -/
theorem cmpBytes_eq_iff : ∀ a b : List Nat, cmpBytes a b = .eq ↔ a = b := by
  intro a
  induction a with
  | nil =>
    intro b
    cases b with
    | nil => simp [cmpBytes]
    | cons y ys => simp [cmpBytes]
  | cons x xs ih =>
    intro b
    cases b with
    | nil => simp [cmpBytes]
    | cons y ys =>
      rcases Nat.lt_trichotomy x y with h | h | h
      · have hne : x ≠ y := Nat.ne_of_lt h
        simp [cmpBytes, h, hne]
      · subst h
        simp [cmpBytes, lt_irrefl, ih]
      · have hne : x ≠ y := (Nat.ne_of_lt h).symm
        have h1 : ¬ x < y := Nat.lt_asymm h
        simp [cmpBytes, h1, h, hne]

/-- `cmpBytes` is antisymmetric: `gt` one way is `lt` the other. -/
theorem cmpBytes_gt_iff_lt : ∀ a b : List Nat, cmpBytes a b = .gt ↔ cmpBytes b a = .lt := by
  intro a
  induction a with
  | nil =>
    intro b
    cases b with
    | nil => simp [cmpBytes]
    | cons y ys => simp [cmpBytes]
  | cons x xs ih =>
    intro b
    cases b with
    | nil => simp [cmpBytes]
    | cons y ys =>
      rcases Nat.lt_trichotomy x y with h | h | h
      · have h1 : ¬ y < x := Nat.lt_asymm h
        simp [cmpBytes, h, h1]
      · subst h
        simp [cmpBytes, lt_irrefl, ih]
      · have h1 : ¬ x < y := Nat.lt_asymm h
        simp [cmpBytes, h1, h]

/-- `cmpBytes`'s strict order is transitive. -/
theorem cmpBytes_lt_trans :
    ∀ a b c : List Nat, cmpBytes a b = .lt → cmpBytes b c = .lt → cmpBytes a c = .lt := by
  intro a
  induction a with
  | nil =>
    intro b c hab hbc
    cases c with
    | nil =>
      cases b with
      | nil => exact hab
      | cons y ys => simp [cmpBytes] at hbc
    | cons z zs => simp [cmpBytes]
  | cons x xs ih =>
    intro b c hab hbc
    cases b with
    | nil => simp [cmpBytes] at hab
    | cons y ys =>
      cases c with
      | nil => simp [cmpBytes] at hbc
      | cons z zs =>
        unfold cmpBytes at hab hbc ⊢
        by_cases hxy : x < y
        · by_cases hyz : y < z
          · have hxz : x < z := Nat.lt_trans hxy hyz
            simp [hxz]
          · by_cases hzy : z < y
            · simp [hxy, hyz, hzy] at hbc
            · have hyz' : y = z := Nat.le_antisymm (Nat.le_of_not_lt hzy) (Nat.le_of_not_lt hyz)
              subst hyz'
              simp [hxy]
        · by_cases hyx : y < x
          · simp [hxy, hyx] at hab
          · have hxy' : x = y := Nat.le_antisymm (Nat.le_of_not_lt hyx) (Nat.le_of_not_lt hxy)
            subst hxy'
            rw [if_neg hxy, if_neg hyx] at hab
            by_cases hyz : x < z
            · simp [hyz]
            · by_cases hzy : z < x
              · simp [hyz, hzy] at hbc
              · rw [if_neg hyz, if_neg hzy] at hbc ⊢
                exact ih ys zs hab hbc

/-! ### The `(key, range_end)` comparator -/

/-- `keyPairCmp` reports `eq` exactly on equal pairs. -/
theorem keyPairCmp_eq_iff (a b : List Nat × List Nat) :
    keyPairCmp a b = .eq ↔ a = b := by
  unfold keyPairCmp
  cases h1 : cmpBytes a.1 b.1 with
  | lt =>
    have hne : a.1 ≠ b.1 := by
      intro he; rw [he] at h1
      rw [(cmpBytes_eq_iff b.1 b.1).mpr rfl] at h1
      cases h1
    constructor
    · intro h; cases h
    · intro h; exact absurd (congrArg Prod.fst h) hne
  | eq =>
    have he1 : a.1 = b.1 := (cmpBytes_eq_iff a.1 b.1).mp h1
    rw [cmpBytes_eq_iff]
    constructor
    · intro h2; exact Prod.ext he1 h2
    · intro h; exact congrArg Prod.snd h
  | gt =>
    have hne : a.1 ≠ b.1 := by
      intro he; rw [he] at h1
      rw [(cmpBytes_eq_iff b.1 b.1).mpr rfl] at h1
      cases h1
    constructor
    · intro h; cases h
    · intro h; exact absurd (congrArg Prod.fst h) hne

/-- `keyPairCmp` is antisymmetric: `gt` one way is `lt` the other. -/
theorem keyPairCmp_gt_iff_lt (a b : List Nat × List Nat) :
    keyPairCmp a b = .gt ↔ keyPairCmp b a = .lt := by
  unfold keyPairCmp
  cases h1 : cmpBytes a.1 b.1 with
  | lt =>
    cases h4 : cmpBytes b.1 a.1 with
    | lt =>
      have h3 : cmpBytes a.1 b.1 = .gt := (cmpBytes_gt_iff_lt a.1 b.1).mpr h4
      rw [h1] at h3; cases h3
    | eq =>
      have hba : b.1 = a.1 := (cmpBytes_eq_iff b.1 a.1).mp h4
      rw [hba, (cmpBytes_eq_iff a.1 a.1).mpr rfl] at h1
      cases h1
    | gt => simp
  | eq =>
    have he : a.1 = b.1 := (cmpBytes_eq_iff a.1 b.1).mp h1
    rw [he, (cmpBytes_eq_iff b.1 b.1).mpr rfl]
    exact cmpBytes_gt_iff_lt a.2 b.2
  | gt =>
    have h4 : cmpBytes b.1 a.1 = .lt := (cmpBytes_gt_iff_lt a.1 b.1).mp h1
    rw [h4]
    simp

/-- `keyPairCmp`'s strict order is transitive. -/
theorem keyPairCmp_lt_trans (a b c : List Nat × List Nat)
    (hab : keyPairCmp a b = .lt) (hbc : keyPairCmp b c = .lt) :
    keyPairCmp a c = .lt := by
  unfold keyPairCmp at hab hbc ⊢
  cases h1 : cmpBytes a.1 b.1 with
  | lt =>
    cases h2 : cmpBytes b.1 c.1 with
    | lt => rw [cmpBytes_lt_trans a.1 b.1 c.1 h1 h2]
    | eq =>
      have he : b.1 = c.1 := (cmpBytes_eq_iff b.1 c.1).mp h2
      rw [← he, h1]
    | gt => rw [h2] at hbc; cases hbc
  | eq =>
    have he : a.1 = b.1 := (cmpBytes_eq_iff a.1 b.1).mp h1
    rw [h1] at hab
    cases h2 : cmpBytes b.1 c.1 with
    | lt => rw [he, h2]
    | eq =>
      have he2 : b.1 = c.1 := (cmpBytes_eq_iff b.1 c.1).mp h2
      rw [h2] at hbc
      rw [he, he2, (cmpBytes_eq_iff c.1 c.1).mpr rfl]
      exact cmpBytes_lt_trans a.2 b.2 c.2 hab hbc
    | gt => rw [h2] at hbc; cases hbc
  | gt => rw [h1] at hab; cases hab

/-! ### The string comparator -/

/-- Characters with equal code points are equal. -/
theorem char_toNat_inj (c d : Char) (h : c.toNat = d.toNat) : c = d :=
  Char.ext (UInt32.ext h)

/-- `strBytes` is injective. -/
theorem strBytes_inj : ∀ (a b : String), strBytes a = strBytes b → a = b := by
  intro a b h
  apply String.ext
  unfold strBytes at h
  revert h
  generalize a.data = x
  generalize b.data = y
  revert y
  induction x with
  | nil =>
    intro y h
    cases y with
    | nil => rfl
    | cons d ds => simp at h
  | cons c cs ih =>
    intro y h
    cases y with
    | nil => simp at h
    | cons d ds =>
      simp only [List.map_cons, List.cons.injEq] at h
      rw [char_toNat_inj c d h.1, ih ds h.2]

/-- `strCmp` reports `eq` exactly on equal strings. -/
theorem strCmp_eq_iff (a b : String) : strCmp a b = .eq ↔ a = b := by
  unfold strCmp
  rw [cmpBytes_eq_iff]
  constructor
  · intro h; exact strBytes_inj a b h
  · intro h; rw [h]

/-- On a strictly sorted role list, the binary search finds the role
exactly when it is a member. -/
theorem rolesSearch_found_iff (l : List String) (x : String)
    (hs : List.Pairwise strLt l) : (rolesSearch l x).isFound = true ↔ x ∈ l := by
  induction l with
  | nil => simp [rolesSearch, bsearchBy, BinResult.isFound]
  | cons a rest ih =>
    have hhead : ∀ b ∈ rest, strLt a b := (List.pairwise_cons.mp hs).1
    have hrest := (List.pairwise_cons.mp hs).2
    cases hc : strCmp a x with
    | lt =>
      have hshape : rolesSearch (a :: rest) x = (rolesSearch rest x).shift := by
        simp [rolesSearch, bsearchBy, hc]
      rw [hshape, BinResult.shift_isFound, ih hrest]
      constructor
      · intro h; exact List.mem_cons_of_mem _ h
      · intro h
        rcases List.mem_cons.mp h with h1 | h1
        · rw [h1] at hc
          rw [(strCmp_eq_iff a a).mpr rfl] at hc
          cases hc
        · exact h1
    | eq =>
      have hax : a = x := (strCmp_eq_iff a x).mp hc
      subst hax
      simp [rolesSearch, bsearchBy, hc, BinResult.isFound]
    | gt =>
      have hxa : strCmp x a = .lt := by
        unfold strCmp at hc ⊢
        exact (cmpBytes_gt_iff_lt _ _).mp hc
      simp only [rolesSearch, bsearchBy, hc, BinResult.isFound]
      constructor
      · intro h; exact absurd h (by simp)
      · intro h
        exfalso
        rcases List.mem_cons.mp h with h1 | h1
        · rw [h1] at hc
          rw [(strCmp_eq_iff a a).mpr rfl] at hc
          cases hc
        · have h3 := cmpBytes_lt_trans _ _ _ hxa (hhead x h1)
          rw [(cmpBytes_eq_iff (strBytes x) (strBytes x)).mpr rfl] at h3
          cases h3

/-! ### The permission-grant list update -/

/-- Unfolding of `grantPermList` over a head element. -/
theorem grantPermList_cons (q : Permission) (rest : List Permission) (p : Permission) :
    grantPermList (q :: rest) p =
      match keyPairCmp (q.key, q.range_end) (p.key, p.range_end) with
      | .lt => q :: grantPermList rest p
      | .eq => { q with perm_type := p.perm_type } :: rest
      | .gt => p :: q :: rest := by
  cases hc : keyPairCmp (q.key, q.range_end) (p.key, p.range_end) with
  | lt =>
    cases hr :
        bsearchBy (fun t => keyPairCmp (t.key, t.range_end) (p.key, p.range_end)) rest with
    | found i =>
      simp [grantPermList, permSearch, bsearchBy, hc, hr, BinResult.shift, listModify]
    | notFound i =>
      simp [grantPermList, permSearch, bsearchBy, hc, hr, BinResult.shift, listInsertAt]
  | eq => simp [grantPermList, permSearch, bsearchBy, hc, listModify]
  | gt => simp [grantPermList, permSearch, bsearchBy, hc, listInsertAt]

/-- On a strictly sorted permission list, granting `p` keeps the list
strictly sorted; if some entry shares `p`'s `(key, range_end)` the result
only overwrites that entry's type (no entry is added or removed);
otherwise the result is `p` inserted into the old list. -/
theorem grantPermList_spec (p : Permission) :
    ∀ kp : List Permission, List.Pairwise permPairLt kp →
      List.Pairwise permPairLt (grantPermList kp p) ∧
      ((∃ q ∈ kp, q.key = p.key ∧ q.range_end = p.range_end) →
        grantPermList kp p = kp.map (fun q =>
          if q.key = p.key ∧ q.range_end = p.range_end
          then { q with perm_type := p.perm_type } else q)) ∧
      ((¬ ∃ q ∈ kp, q.key = p.key ∧ q.range_end = p.range_end) →
        (grantPermList kp p).Perm (p :: kp)) := by
  intro kp
  induction kp with
  | nil =>
    intro _
    refine ⟨?_, ?_, ?_⟩
    · simp [grantPermList, permSearch, bsearchBy, listInsertAt]
    · intro h; simp at h
    · intro _; simp [grantPermList, permSearch, bsearchBy, listInsertAt]
  | cons q rest ih =>
    intro hs
    have hhead : ∀ x ∈ rest, permPairLt q x := (List.pairwise_cons.mp hs).1
    have hrest : List.Pairwise permPairLt rest := (List.pairwise_cons.mp hs).2
    obtain ⟨ihS, ihM, ihP⟩ := ih hrest
    cases hc : keyPairCmp (q.key, q.range_end) (p.key, p.range_end) with
    | lt =>
      have hg : grantPermList (q :: rest) p = q :: grantPermList rest p := by
        rw [grantPermList_cons, hc]
      have hqp : permPairLt q p := hc
      have hqnp : ¬ (q.key = p.key ∧ q.range_end = p.range_end) := by
        rintro ⟨h1, h2⟩
        have he : keyPairCmp (q.key, q.range_end) (p.key, p.range_end) = .eq :=
          (keyPairCmp_eq_iff _ _).mpr (by rw [h1, h2])
        rw [hc] at he; cases he
      refine ⟨?_, ?_, ?_⟩
      · rw [hg]
        refine List.pairwise_cons.mpr ⟨?_, ihS⟩
        intro x hx
        by_cases hk : ∃ r ∈ rest, r.key = p.key ∧ r.range_end = p.range_end
        · rw [ihM hk] at hx
          rcases List.mem_map.mp hx with ⟨y, hy, hxy⟩
          by_cases hyp : y.key = p.key ∧ y.range_end = p.range_end
          · rw [if_pos hyp] at hxy
            have : permPairLt q y := hhead y hy
            rw [← hxy]
            exact this
          · rw [if_neg hyp] at hxy
            rw [← hxy]
            exact hhead y hy
        · have hx2 : x ∈ p :: rest := (ihP hk).mem_iff.mp hx
          rcases List.mem_cons.mp hx2 with h1 | h1
          · rw [h1]; exact hqp
          · exact hhead x h1
      · intro hk
        have hk2 : ∃ r ∈ rest, r.key = p.key ∧ r.range_end = p.range_end := by
          rcases hk with ⟨r, hr, hre⟩
          rcases List.mem_cons.mp hr with h1 | h1
          · exact absurd (h1 ▸ hre) hqnp
          · exact ⟨r, h1, hre⟩
        rw [hg, ihM hk2]
        simp only [List.map_cons, if_neg hqnp]
      · intro hk
        have hk2 : ¬ ∃ r ∈ rest, r.key = p.key ∧ r.range_end = p.range_end := by
          rintro ⟨r, hr, hre⟩
          exact hk ⟨r, List.mem_cons_of_mem q hr, hre⟩
        rw [hg]
        exact ((ihP hk2).cons q).trans (List.Perm.swap p q rest)
    | eq =>
      have hg : grantPermList (q :: rest) p = { q with perm_type := p.perm_type } :: rest := by
        rw [grantPermList_cons, hc]
      have hpr : (q.key, q.range_end) = (p.key, p.range_end) := (keyPairCmp_eq_iff _ _).mp hc
      have hpair : q.key = p.key ∧ q.range_end = p.range_end :=
        ⟨congrArg Prod.fst hpr, congrArg Prod.snd hpr⟩
      refine ⟨?_, ?_, ?_⟩
      · rw [hg]
        refine List.pairwise_cons.mpr ⟨?_, hrest⟩
        intro x hx
        exact hhead x hx
      · intro _
        rw [hg]
        simp only [List.map_cons]
        rw [if_pos hpair]
        congr 1
        refine (map_eq_self_of_fix _ rest ?_).symm
        intro x hx
        rw [if_neg ?_]
        rintro ⟨h1, h2⟩
        have hlt : permPairLt q x := hhead x hx
        unfold permPairLt at hlt
        rw [hpair.1, hpair.2, h1, h2, (keyPairCmp_eq_iff _ _).mpr rfl] at hlt
        cases hlt
      · intro hk
        exact absurd ⟨q, List.mem_cons_self q rest, hpair⟩ hk
    | gt =>
      have hg : grantPermList (q :: rest) p = p :: q :: rest := by
        rw [grantPermList_cons, hc]
      have hpq : permPairLt p q := (keyPairCmp_gt_iff_lt _ _).mp hc
      refine ⟨?_, ?_, ?_⟩
      · rw [hg]
        refine List.pairwise_cons.mpr ⟨?_, hs⟩
        intro x hx
        rcases List.mem_cons.mp hx with h1 | h1
        · rw [h1]; exact hpq
        · exact keyPairCmp_lt_trans _ _ _ hpq (hhead x h1)
      · intro hk
        exfalso
        rcases hk with ⟨r, hr, hre⟩
        rcases List.mem_cons.mp hr with h1 | h1
        · have h2 : q.key = p.key ∧ q.range_end = p.range_end := h1 ▸ hre
          have he : keyPairCmp (q.key, q.range_end) (p.key, p.range_end) = .eq :=
            (keyPairCmp_eq_iff _ _).mpr (by rw [h2.1, h2.2])
          rw [he] at hc; cases hc
        · have h3 : permPairLt p r := keyPairCmp_lt_trans _ _ _ hpq (hhead r h1)
          unfold permPairLt at h3
          rw [hre.1, hre.2, (keyPairCmp_eq_iff _ _).mpr rfl] at h3
          cases h3
      · intro _
        rw [hg]

/-! ### Revision accounting of the sync functions -/

/-- `put_user` does not touch the revision counter. -/
theorem put_user_revision (s : AuthState) (u : User) (rev sub : Nat) :
    (put_user s u rev sub).revision = s.revision := rfl

/-- The role-delete cascade does not touch the revision counter. -/
theorem roleDeleteCascade_revision (role : String) (rev : Nat) :
    ∀ (users : List User) (s : AuthState) (sub : Nat)
      (np : List (String × UserPermissions)),
      (roleDeleteCascade role rev users s sub np).1.revision = s.revision := by
  intro users
  induction users with
  | nil => intro s sub np; rfl
  | cons u rest ih =>
    intro s sub np
    unfold roleDeleteCascade
    cases rolesSearch u.roles role with
    | notFound i => exact ih s sub np
    | found i => exact ih _ _ _

/-- Every sync that applies without error leaves the revision counter
unchanged or advances it by exactly one. -/
theorem sync_dispatch_revision (s : AuthState) (w : RequestWrapper) (s' : AuthState)
    (h : sync_dispatch s w = Except.ok s') :
    s'.revision = s.revision ∨ s'.revision = s.revision + 1 := by
  cases w with
  | authEnable =>
    have hs : sync_auth_enable_request s = s' := by
      simpa [sync_dispatch] using h
    rw [← hs]
    by_cases hb : s.enabled
    · left; simp [sync_auth_enable_request, hb]
    · right
      simp [sync_auth_enable_request, hb, create_permission_cache, put_auth_enable,
        next_revision]
  | authDisable =>
    have hs : sync_auth_disable_request s = s' := by
      simpa [sync_dispatch] using h
    rw [← hs]
    by_cases hb : s.enabled
    · right; simp [sync_auth_disable_request, hb, put_auth_enable, next_revision]
    · left; simp [sync_auth_disable_request, hb]
  | authStatus =>
    left; have : s = s' := by simpa [sync_dispatch] using h
    rw [this]
  | authenticate name password =>
    left; have : s = s' := by simpa [sync_dispatch] using h
    rw [this]
  | userAdd name hp options =>
    right
    have hs : sync_user_add_request s name hp options = s' := by
      simpa [sync_dispatch] using h
    rw [← hs]
    simp [sync_user_add_request, put_user, next_revision]
  | userGet name =>
    left; have : s = s' := by simpa [sync_dispatch] using h
    rw [this]
  | userList =>
    left; have : s = s' := by simpa [sync_dispatch] using h
    rw [this]
  | userDelete name =>
    right
    have hs : sync_user_delete_request s name = s' := by
      simpa [sync_dispatch] using h
    rw [← hs]
    simp [sync_user_delete_request, delete_user, next_revision]
  | userChangePassword name hp =>
    have h2 : sync_user_change_password_request s name hp = Except.ok s' := by
      simpa [sync_dispatch] using h
    unfold sync_user_change_password_request at h2
    cases hu : get_user s name with
    | error e => rw [hu] at h2; cases h2
    | ok u =>
      rw [hu] at h2
      injection h2 with h3
      right
      rw [← h3]
      simp [put_user, next_revision]
  | userGrantRole user role =>
    have h2 : sync_user_grant_role_request s user role = Except.ok s' := by
      simpa [sync_dispatch] using h
    unfold sync_user_grant_role_request at h2
    cases hu : get_user s user with
    | error e => rw [hu] at h2; cases h2
    | ok u =>
      simp only [hu] at h2
      by_cases hre : role ≠ "root" ∧ exceptIsErr (get_role s role) = true
      · rw [if_pos hre] at h2; cases h2
      · rw [if_neg hre] at h2
        cases hf : rolesSearch u.roles role with
        | found i => simp only [hf] at h2; cases h2
        | notFound i =>
          simp only [hf] at h2
          right
          cases hrr : get_role s role with
          | error e =>
            simp only [hrr] at h2
            injection h2 with h3
            rw [← h3]
            simp [put_user, next_revision]
          | ok r =>
            simp only [hrr] at h2
            injection h2 with h3
            rw [← h3]
            simp [put_user, next_revision]
  | userRevokeRole name role =>
    have h2 : sync_user_revoke_role_request s name role = Except.ok s' := by
      simpa [sync_dispatch] using h
    unfold sync_user_revoke_role_request at h2
    cases hu : get_user s name with
    | error e => rw [hu] at h2; cases h2
    | ok u =>
      simp only [hu] at h2
      cases hf : rolesSearch u.roles role with
      | notFound i => simp only [hf] at h2; cases h2
      | found i =>
        simp only [hf] at h2
        injection h2 with h3
        right
        rw [← h3]
        simp [put_user, next_revision]
  | roleAdd name =>
    right
    have hs : sync_role_add_request s name = s' := by
      simpa [sync_dispatch] using h
    rw [← hs]
    simp [sync_role_add_request, put_role, next_revision]
  | roleGet role =>
    left; have : s = s' := by simpa [sync_dispatch] using h
    rw [this]
  | roleList =>
    left; have : s = s' := by simpa [sync_dispatch] using h
    rw [this]
  | roleDelete role =>
    right
    have hs : sync_role_delete_request s role = s' := by
      simpa [sync_dispatch] using h
    rw [← hs]
    unfold sync_role_delete_request
    have hc := roleDeleteCascade_revision role (s.revision + 1)
      (get_all_users (delete_role { s with revision := s.revision + 1 } role (s.revision + 1) 0))
      (delete_role { s with revision := s.revision + 1 } role (s.revision + 1) 0) 1 []
    simpa [next_revision, delete_role] using hc
  | roleGrantPermission name perm =>
    have h2 : sync_role_grant_permission_request s name perm = Except.ok s' := by
      simpa [sync_dispatch] using h
    unfold sync_role_grant_permission_request at h2
    cases hr : get_role s name with
    | error e => rw [hr] at h2; cases h2
    | ok r =>
      rw [hr] at h2
      cases perm with
      | none => cases h2
      | some permission =>
        injection h2 with h3
        right
        rw [← h3]
        simp [put_role, next_revision]
  | roleRevokePermission role key range_end =>
    have h2 : sync_role_revoke_permission_request s role key range_end = Except.ok s' := by
      simpa [sync_dispatch] using h
    unfold sync_role_revoke_permission_request at h2
    cases hr : get_role s role with
    | error e => rw [hr] at h2; cases h2
    | ok r =>
      simp only [hr] at h2
      cases hf : permSearch r.key_permission key range_end with
      | notFound i => simp only [hf] at h2; cases h2
      | found i =>
        simp only [hf] at h2
        injection h2 with h3
        right
        rw [← h3]
        simp [put_role, next_revision]

/-! ### Idempotence helpers -/

/-- Enabling when already enabled is the identity. -/
theorem sync_enable_of_enabled (s : AuthState) (h : s.enabled = true) :
    sync_auth_enable_request s = s := by
  simp [sync_auth_enable_request, h]

/-- After the enable sync the flag is up. -/
theorem sync_enable_result_enabled (s : AuthState) :
    (sync_auth_enable_request s).enabled = true := by
  by_cases hb : s.enabled
  · simp [sync_auth_enable_request, hb]
  · simp [sync_auth_enable_request, hb, create_permission_cache, put_auth_enable,
      next_revision]

/-- Disabling when already disabled is the identity. -/
theorem sync_disable_of_disabled (s : AuthState) (h : s.enabled = false) :
    sync_auth_disable_request s = s := by
  simp [sync_auth_disable_request, h]

/-- After the disable sync the flag is down. -/
theorem sync_disable_result_disabled (s : AuthState) :
    (sync_auth_disable_request s).enabled = false := by
  by_cases hb : s.enabled
  · simp [sync_auth_disable_request, hb, put_auth_enable, next_revision]
  · simp [sync_auth_disable_request, hb]

/-! ### The claims -/

/-- C3: for every proposal id and request, execute (`handle_auth_req`)
leaves the revision counter, the persisted user/role/enable records, the
MVCC index, the enabled flag and the permission cache unchanged (it only
records the request context in the speculative pool), and executing the
same request again against the resulting state returns the same
response. -/
theorem c3_execute_pure (s : AuthState) (id id2 : Nat) (w : RequestWrapper) :
    (handle_auth_req s id w).1.users = s.users ∧
    (handle_auth_req s id w).1.roles = s.roles ∧
    (handle_auth_req s id w).1.auth_enable_rec = s.auth_enable_rec ∧
    (handle_auth_req s id w).1.index = s.index ∧
    (handle_auth_req s id w).1.enabled = s.enabled ∧
    (handle_auth_req s id w).1.revision = s.revision ∧
    (handle_auth_req s id w).1.permission_cache = s.permission_cache ∧
    (handle_auth_req (handle_auth_req s id w).1 id2 w).2 = (handle_auth_req s id w).2 := by
  refine ⟨rfl, rfl, rfl, rfl, rfl, rfl, rfl, ?_⟩
  cases w <;> rfl

/-- C9: applying the `AuthEnable` sync twice from any state yields the
same state as applying it once, and likewise for the `AuthDisable`
sync. -/
theorem c9_enable_disable_idempotent (s : AuthState) :
    sync_auth_enable_request (sync_auth_enable_request s) = sync_auth_enable_request s ∧
    sync_auth_disable_request (sync_auth_disable_request s) = sync_auth_disable_request s :=
  ⟨sync_enable_of_enabled _ (sync_enable_result_enabled s),
   sync_disable_of_disabled _ (sync_disable_result_disabled s)⟩

/-- C10: a single-key `get` through the key index returns at most one
revision in every state, so the assertion `revisions.len() <= 1` in the
backend's `get` cannot fail — in particular not in states reached through
`put` and `delete`. -/
theorem c10_single_key_get_at_most_one (s : AuthState) (k : IdxKey) :
    (idxGetOne s.index k).length ≤ 1 := by
  unfold idxGetOne
  split
  · simp
  · simp
  · split <;> simp

/-- C4: if execute recorded an error for a proposal id, sync for that id
pops the pool entry but allocates no revision, writes nothing, leaves the
cache untouched, and returns the current (header) revision. -/
theorem c4_sync_noop_on_execute_error (s : AuthState) (id : Nat) (ctx : RequestCtx)
    (hl : alookup s.sp_exec_pool id = some ctx) (he : ctx.met_err_flag = true) :
    sync_request s id =
      some ({ s with sp_exec_pool := aremove s.sp_exec_pool id },
        Except.ok s.header_revision) := by
  unfold sync_request
  rw [hl]
  simp [he]

/-- C4 witness: a concrete pool entry with the error flag set syncs to a
no-op. -/
theorem c4_sync_noop_witness :
    sync_request
        { initialState with sp_exec_pool := [(7, ⟨RequestWrapper.authEnable, true⟩)] } 7 =
      some ({ initialState with sp_exec_pool := [] }, Except.ok 0) := by
  have h := c4_sync_noop_on_execute_error
    { initialState with sp_exec_pool := [(7, ⟨RequestWrapper.authEnable, true⟩)] } 7
    ⟨RequestWrapper.authEnable, true⟩ rfl rfl
  exact h

/-- C8: whenever the role `root` exists in the store, `RoleGet("root")`
returns exactly the one synthesized `Readwrite` permission over
`(key = [], range_end = [0x00])`, regardless of the stored
permissions. -/
theorem c8_role_get_root_synthesized (s : AuthState) (r : Role)
    (h : get_role s "root" = Except.ok r) :
    handle_role_get_request s "root" =
      Except.ok (ResponseWrapper.roleGet [⟨PermType.readwrite, [], [0]⟩]) := by
  have hn : r.name = "root" := by
    unfold get_role at h
    cases hk : klookup Role.name s.roles "root" with
    | none => rw [hk] at h; cases h
    | some r2 =>
      rw [hk] at h
      injection h with h2
      rw [← h2]
      exact klookup_key Role.name s.roles "root" r2 hk
  unfold handle_role_get_request
  simp only [h]
  simp [hn]

/-- C8 witness: a root role storing an unrelated permission still reports
the synthesized one. -/
theorem c8_role_get_root_witness :
    handle_role_get_request
        { initialState with roles := [⟨"root", [⟨PermType.read, [3], [4]⟩]⟩] } "root" =
      Except.ok (ResponseWrapper.roleGet [⟨PermType.readwrite, [], [0]⟩]) :=
  c8_role_get_root_synthesized _ ⟨"root", [⟨PermType.read, [3], [4]⟩]⟩ rfl

/-- C2 counterexample: the sync of an `AuthStatus` request returns without
error yet leaves the revision counter unchanged, refuting the claim that
every error-free sync strictly increases it. -/
theorem c2_readonly_sync_counterexample :
    sync_request ((handle_auth_req initialState 0 RequestWrapper.authStatus).1) 0 =
      some (initialState, Except.ok 0) ∧
    ((handle_auth_req initialState 0 RequestWrapper.authStatus).1).revision =
      initialState.revision :=
  ⟨rfl, rfl⟩

/-- C2 (amended): every sync that returns without error leaves the
revision counter unchanged or advances it by exactly one (so it never
decreases); read-only requests, error-flagged contexts and
enable/disable no-ops are the unchanged cases. -/
theorem c2_sync_revision_amended (s : AuthState) (id : Nat) (s' : AuthState) (r : Nat)
    (h : sync_request s id = some (s', Except.ok r)) :
    s'.revision = s.revision ∨ s'.revision = s.revision + 1 := by
  unfold sync_request at h
  cases hl : alookup s.sp_exec_pool id with
  | none => rw [hl] at h; cases h
  | some ctx =>
    simp only [hl] at h
    by_cases he : ctx.met_err_flag = true
    · rw [if_pos he] at h
      injection h with h2
      have h3 : ({ s with sp_exec_pool := aremove s.sp_exec_pool id } : AuthState) = s' :=
        congrArg Prod.fst h2
      left
      rw [← h3]
    · rw [if_neg he] at h
      cases hd : sync_dispatch { s with sp_exec_pool := aremove s.sp_exec_pool id }
          ctx.req with
      | ok s2 =>
        simp only [hd] at h
        injection h with h2
        have h3 : s2 = s' := congrArg Prod.fst h2
        have h4 := sync_dispatch_revision _ _ _ hd
        rw [← h3]
        exact h4
      | error e =>
        simp only [hd] at h
        injection h with h2
        have h5 := congrArg Prod.snd h2
        cases h5

/-- C2 witness: a concrete `UserAdd` sync advances the revision by one. -/
theorem c2_sync_revision_witness :
    ∃ s' : AuthState,
      sync_request { initialState with
          sp_exec_pool := [(5, ⟨RequestWrapper.userAdd "a" "h" none, false⟩)] } 5 =
        some (s', Except.ok 0) ∧
      (s'.revision = ({ initialState with
          sp_exec_pool := [(5, ⟨RequestWrapper.userAdd "a" "h" none, false⟩)] } :
            AuthState).revision ∨
        s'.revision = ({ initialState with
          sp_exec_pool := [(5, ⟨RequestWrapper.userAdd "a" "h" none, false⟩)] } :
            AuthState).revision + 1) := by
  refine ⟨_, rfl, ?_⟩
  exact c2_sync_revision_amended _ 5 _ 0 rfl

/-- C1: running the enable lifecycle (add root user, add root role, grant
root the root role, enable auth) leaves the permission cache's
`role_to_users_map` empty, although the persisted user `root` holds the
role `root` and the spec's rebuild maps `root` to `["root"]`: the cache
rebuild performed by `AuthEnable` drops the role-to-users index, so the
cache does not equal a full rebuild. -/
theorem c1_cache_rebuild_drops_role_index :
    (runSeq initialState c1Seq).permission_cache.role_to_users_map = [] ∧
    (runSeq initialState c1Seq).users = [⟨"root", "h", none, ["root"]⟩] ∧
    spec_role_to_users (runSeq initialState c1Seq) = [("root", ["root"])] := by
  refine ⟨?_, ?_, ?_⟩ <;> decide

/-- C5 counterexample: in a state where auth is already enabled and no
user exists at all, execute of `AuthEnable` succeeds, refuting the claim
that it errors unless `root` exists and holds role `root`. -/
theorem c5_enabled_skips_root_check_counterexample :
    handle_auth_enable_request { initialState with enabled := true } =
      Except.ok ResponseWrapper.authEnable ∧
    get_user { initialState with enabled := true } "root" =
      Except.error (ExecuteError.invalidCommand "user not found") :=
  ⟨rfl, rfl⟩

/-- C5 (amended): when auth is already enabled, execute of `AuthEnable`
succeeds unconditionally; when auth is disabled (and the root user's
roles are sorted, as the store keeps them), it succeeds exactly when the
user `root` exists and holds the role `root`, and returns a validation
error otherwise. -/
theorem c5_enable_validation_amended (s : AuthState) :
    (s.enabled = true →
      handle_auth_enable_request s = Except.ok ResponseWrapper.authEnable) ∧
    (s.enabled = false →
      (∀ u : User, get_user s "root" = Except.ok u → List.Pairwise strLt u.roles) →
      (exceptIsOk (handle_auth_enable_request s) = true ↔
        ∃ u : User, get_user s "root" = Except.ok u ∧ "root" ∈ u.roles)) := by
  constructor
  · intro hb
    unfold handle_auth_enable_request
    rw [if_pos hb]
  · intro hb hsort
    unfold handle_auth_enable_request
    rw [if_neg (by simp [hb])]
    cases hg : get_user s "root" with
    | error e =>
      simp only [hg]
      constructor
      · intro hfalse; exact absurd hfalse (by simp [exceptIsOk])
      · rintro ⟨u, hu, _⟩
        cases hu
    | ok u =>
      simp only [hg]
      have hsu := hsort u hg
      by_cases hf : (rolesSearch u.roles "root").isFound = true
      · rw [if_pos hf]
        constructor
        · intro _
          exact ⟨u, rfl, (rolesSearch_found_iff u.roles "root" hsu).mp hf⟩
        · intro _; rfl
      · rw [if_neg hf]
        constructor
        · intro hcon; exact absurd hcon (by simp [exceptIsOk])
        · rintro ⟨u2, hu2, hmem⟩
          injection hu2 with h3
          rw [← h3] at hmem
          exact absurd ((rolesSearch_found_iff u.roles "root" hsu).mpr hmem) hf

/-- C5 witness: with a disabled store holding root with role root,
execute of `AuthEnable` succeeds. -/
theorem c5_enable_validation_witness :
    exceptIsOk (handle_auth_enable_request c5RootState) = true := by
  have hsort : ∀ u : User, get_user c5RootState "root" = Except.ok u →
      List.Pairwise strLt u.roles := by
    intro u hu
    have h0 : get_user c5RootState "root" =
        Except.ok (⟨"root", "h", none, ["root"]⟩ : User) := rfl
    rw [h0] at hu
    injection hu with h3
    rw [← h3]
    simp
  have h := (c5_enable_validation_amended c5RootState).2 rfl hsort
  exact h.mpr ⟨⟨"root", "h", none, ["root"]⟩, rfl, by simp⟩

/-- C6 counterexample: in the duplicate-grant scenario the first
execute/sync pair succeeds, and the second execute of the same
`UserGrantRole` also returns Ok — not the `InvalidCommand` the claim
asserts (the duplicate check lives in sync). -/
theorem c6_second_execute_ok_counterexample :
    c6FirstExec.2 = Except.ok ResponseWrapper.userGrantRole ∧
    (∃ rev, sync_request c6FirstExec.1 3 = some (c6AfterFirst, Except.ok rev)) ∧
    c6SecondExec.2 = Except.ok ResponseWrapper.userGrantRole :=
  ⟨rfl, ⟨0, rfl⟩, rfl⟩

/-- C6 (amended): when `UserGrantRole("alice","dev")` is executed and
synced twice (the first pair succeeding), the second execute succeeds; it
is the second sync that returns `InvalidCommand` reporting the user
already has the role, and the revision counter is unchanged by that
sync. -/
theorem c6_duplicate_grant_amended :
    c6SecondExec.2 = Except.ok ResponseWrapper.userGrantRole ∧
    sync_request c6SecondExec.1 4 =
      some (c6AfterSecond,
        Except.error (ExecuteError.invalidCommand "User alice already has role dev")) ∧
    c6AfterSecond.revision = c6AfterFirst.revision := by
  refine ⟨rfl, ?_, ?_⟩ <;> rfl

/-- C7: syncing `RoleGrantPermission` on an existing role whose stored
permissions are sorted, with a permission present in the request,
succeeds; afterwards the stored list is still strictly sorted by
`(key, range_end)`, and: if an entry with the same `(key, range_end)` was
present, only that entry's `perm_type` is overwritten (no entry added or
removed); otherwise the new permission is inserted at its sorted
position. -/
theorem c7_grant_permission_overwrite_or_insert (s : AuthState) (name : String)
    (p : Permission) (role : Role)
    (hr : get_role s name = Except.ok role)
    (hs : List.Pairwise permPairLt role.key_permission) :
    ∃ s', sync_role_grant_permission_request s name (some p) = Except.ok s' ∧
      ∃ role', get_role s' name = Except.ok role' ∧
        role'.key_permission = grantPermList role.key_permission p ∧
        List.Pairwise permPairLt role'.key_permission ∧
        ((∃ q ∈ role.key_permission, q.key = p.key ∧ q.range_end = p.range_end) →
          role'.key_permission = role.key_permission.map (fun q =>
            if q.key = p.key ∧ q.range_end = p.range_end
            then { q with perm_type := p.perm_type } else q)) ∧
        ((¬ ∃ q ∈ role.key_permission, q.key = p.key ∧ q.range_end = p.range_end) →
          role'.key_permission.Perm (p :: role.key_permission)) := by
  obtain ⟨hsorted, hmap, hins⟩ := grantPermList_spec p role.key_permission hs
  have hname : role.name = name := by
    unfold get_role at hr
    cases hk : klookup Role.name s.roles name with
    | none => rw [hk] at hr; cases hr
    | some r2 =>
      rw [hk] at hr
      injection hr with h2
      rw [← h2]
      exact klookup_key Role.name s.roles name r2 hk
  have hkk2 : klookup Role.name
      (kput Role.name s.roles
        { role with key_permission := grantPermList role.key_permission p }) name =
      some { role with key_permission := grantPermList role.key_permission p } := by
    rw [← hname]
    exact klookup_kput_self Role.name s.roles _
  cases hres : sync_role_grant_permission_request s name (some p) with
  | error e =>
    exfalso
    unfold sync_role_grant_permission_request at hres
    simp only [hr] at hres
    cases hres
  | ok s2 =>
    refine ⟨s2, rfl,
      { role with key_permission := grantPermList role.key_permission p },
      ?_, rfl, hsorted, hmap, hins⟩
    unfold sync_role_grant_permission_request at hres
    simp only [hr] at hres
    injection hres with h2
    have hroles : s2.roles = kput Role.name s.roles
        { role with key_permission := grantPermList role.key_permission p } := by
      rw [← h2]
      rfl
    unfold get_role
    rw [hroles, hkk2]

/-- C7 witness: granting over an existing `(key, range_end)` pair on a
concrete role. -/
theorem c7_grant_permission_witness :
    ∃ s', sync_role_grant_permission_request c7State "dev" (some c7Perm) = Except.ok s' ∧
      ∃ role', get_role s' "dev" = Except.ok role' ∧
        role'.key_permission =
          grantPermList (⟨"dev", [⟨PermType.read, [1], [2]⟩]⟩ : Role).key_permission c7Perm ∧
        List.Pairwise permPairLt role'.key_permission ∧
        ((∃ q ∈ (⟨"dev", [⟨PermType.read, [1], [2]⟩]⟩ : Role).key_permission,
            q.key = c7Perm.key ∧ q.range_end = c7Perm.range_end) →
          role'.key_permission =
            (⟨"dev", [⟨PermType.read, [1], [2]⟩]⟩ : Role).key_permission.map (fun q =>
              if q.key = c7Perm.key ∧ q.range_end = c7Perm.range_end
              then { q with perm_type := c7Perm.perm_type } else q)) ∧
        ((¬ ∃ q ∈ (⟨"dev", [⟨PermType.read, [1], [2]⟩]⟩ : Role).key_permission,
            q.key = c7Perm.key ∧ q.range_end = c7Perm.range_end) →
          role'.key_permission.Perm
            (c7Perm :: (⟨"dev", [⟨PermType.read, [1], [2]⟩]⟩ : Role).key_permission)) :=
  c7_grant_permission_overwrite_or_insert c7State "dev" c7Perm
    ⟨"dev", [⟨PermType.read, [1], [2]⟩]⟩ rfl (by simp)

end XlineAuth
